import Mathlib

/-!
Verification of the SEC filing tracker script (scripts/sec_filing_tracker.py).

The script is embedded shallowly: every function of the script that the
properties below mention is translated into an executable Lean definition.
Machine-level concerns (HTTP, the filesystem) are made explicit: the HTTP
layer becomes an oracle mapping attempt indices to responses, and the
filesystem becomes a value threaded through the run.
-/

/-- Python str.strip of leading and trailing whitespace (done on the
character list of the string). -/
def pyStrip (s : String) : String :=
  String.mk (((s.data.dropWhile Char.isWhitespace).reverse.dropWhile Char.isWhitespace).reverse)

/-- Python str.rstrip of trailing whitespace. -/
def pyRstrip (s : String) : String :=
  String.mk ((s.data.reverse.dropWhile Char.isWhitespace).reverse)

/-- Python str.upper, restricted to the ASCII case mapping. -/
def pyUpper (s : String) : String :=
  String.mk (s.data.map Char.toUpper)

/-- Lexicographic strict comparison of character lists, the order Python
uses on strings. -/
def listLtb : List Char → List Char → Bool
  | [], [] => false
  | [], _ :: _ => true
  | _ :: _, [] => false
  | a :: as, b :: bs => if a < b then true else if b < a then false else listLtb as bs

/-- Python string comparison s < t. -/
def strLtB (s t : String) : Bool :=
  listLtb s.data t.data

/-- The decimal digit character for n % 10. -/
def dchar (n : Nat) : Char :=
  Char.ofNat (48 + n % 10)

/-- Numeric value of a decimal digit character. -/
def digitVal (c : Char) : Nat :=
  c.toNat - 48

/-- Value denoted by a list of decimal digit characters. -/
def digitsToNat (ds : List Char) : Nat :=
  ds.foldl (fun acc c => 10 * acc + digitVal c) 0

/-- Two-character zero-padded decimal rendering of n % 100 (the %02d of
Python date.isoformat). -/
def pad2 (n : Nat) : List Char :=
  [dchar (n / 10), dchar n]

/-- Four-character zero-padded decimal rendering of n % 10000 (the %04d of
Python date.isoformat). -/
def pad4 (n : Nat) : List Char :=
  pad2 (n / 100) ++ pad2 n

/-- Longest prefix of decimal digit characters, together with the rest
(the behaviour of a maximal \d* scan). -/
def takeDigits : List Char → List Char × List Char
  | [] => ([], [])
  | c :: cs =>
    if c.isDigit then
      let p := takeDigits cs
      (c :: p.1, p.2)
    else ([], c :: cs)

/-- A calendar date as Python datetime.date: a year, month, day triple. -/
structure Date where
  year : Nat
  month : Nat
  day : Nat
deriving DecidableEq, Repr

/-- Python date comparison: lexicographic on the (year, month, day) triple. -/
def dateLt (a b : Date) : Bool :=
  a.year < b.year ||
    (a.year == b.year &&
      (a.month < b.month || (a.month == b.month && a.day < b.day)))

/-- Gregorian leap-year test used by Python datetime. -/
def isLeap (y : Nat) : Bool :=
  y % 4 == 0 && (y % 100 != 0 || y % 400 == 0)

/-- Days in a month, as validated by the Python datetime constructor. -/
def daysInMonth (y m : Nat) : Nat :=
  if m == 2 then (if isLeap y then 29 else 28)
  else if m == 4 || m == 6 || m == 9 || m == 11 then 30
  else 31

/-- Embedding of datetime.strptime(s, "%Y-%m-%d").date(): exactly four
digits of year, a dash, one or two digits of month, a dash, one or two
digits of day consuming the rest of the string, with the value ranges the
strptime regex and the datetime constructor enforce (year at least
MINYEAR = 1, month 1..12, day 1..days in the month). -/
def parseYMD (s : String) : Option Date :=
  let p1 := takeDigits s.data
  if p1.1.length ≠ 4 ∨ p1.2.head? ≠ some '-' then none
  else
    let p2 := takeDigits p1.2.tail
    if p2.1.length = 0 ∨ 2 < p2.1.length ∨ p2.2.head? ≠ some '-' then none
    else
      let p3 := takeDigits p2.2.tail
      if p3.2 ≠ [] ∨ p3.1.length = 0 ∨ 2 < p3.1.length then none
      else
        let y := digitsToNat p1.1
        let m := digitsToNat p2.1
        let d := digitsToNat p3.1
        if 1 ≤ y ∧ 1 ≤ m ∧ m ≤ 12 ∧ 1 ≤ d ∧ d ≤ daysInMonth y m then
          some ⟨y, m, d⟩
        else none

/-- Python date.isoformat: zero-padded YYYY-MM-DD. -/
def isoDate (d : Date) : String :=
  String.mk (pad4 d.year ++ ('-' :: pad2 d.month) ++ ('-' :: pad2 d.day))

/-- The fixed accepted form set FORMS of the script. -/
def FORMS : List String :=
  ["10-K", "10-Q", "20-F", "8-K", "6-K"]

/-- The four parallel arrays under filings.recent of a submissions
document, plus the cik field the script injects before parsing. -/
structure Submissions where
  forms : List String
  filingDates : List String
  accessionNumbers : List String
  primaryDocuments : List String
  cik : Nat
deriving DecidableEq, Repr

/-- A filing record as built by parse_recent_filings. -/
structure Filing where
  form : String
  filed : String
  url : String
deriving DecidableEq, Repr

/-- archive_url of the script: base path, cik without leading zeros,
accession number with dashes stripped, primary document name. -/
def archive_url (cik : Nat) (accession primaryDoc : String) : String :=
  "https://www.sec.gov/Archives/edgar/data/" ++ toString cik ++ "/" ++
    String.mk (accession.data.filter (fun c => c ≠ '-')) ++ "/" ++ primaryDoc

/-- The shortest length of the four parallel arrays, the loop bound of
parse_recent_filings. -/
def minLen (subs : Submissions) : Nat :=
  min (min subs.forms.length subs.filingDates.length)
    (min subs.accessionNumbers.length subs.primaryDocuments.length)

/-- One iteration of the parse_recent_filings loop: the record built at
position i, or none when one of the continue branches fires. -/
def rowOf (subs : Submissions) (cutoff : Date) (i : Nat) : Option Filing :=
  let form := pyStrip (subs.forms.getD i "")
  if form ∉ FORMS then none
  else
    match parseYMD (subs.filingDates.getD i "") with
    | none => none
    | some filed =>
      if dateLt filed cutoff then none
      else
        let acc := pyStrip (subs.accessionNumbers.getD i "")
        let pdoc := pyStrip (subs.primaryDocuments.getD i "")
        if acc = "" ∨ pdoc = "" then none
        else some { form := form, filed := isoDate filed,
                    url := archive_url subs.cik acc pdoc }

/-- The filings list of parse_recent_filings before the final sort. -/
def filingRows (subs : Submissions) (cutoff : Date) : List Filing :=
  (List.range (minLen subs)).filterMap (rowOf subs cutoff)

/-- The order of the final sort: a may precede b when the filed key of a
is not below the filed key of b, which is what the stable descending sort
filings.sort(key = filed, reverse = True) establishes. -/
def filedDesc (a b : Filing) : Prop :=
  strLtB a.filed b.filed = false

instance : DecidableRel filedDesc := fun a b => by
  unfold filedDesc
  infer_instance

/-- parse_recent_filings of the script: filter the parallel arrays, then
sort the records newest first by the filed string (a stable sort, as
Python list.sort). -/
def parse_recent_filings (subs : Submissions) (cutoff : Date) : List Filing :=
  (filingRows subs cutoff).insertionSort filedDesc

/-- Error outcomes of http_get_json: an HTTP error status raised by
raise_for_status, an unparsable JSON body, or the RuntimeError after the
loop. -/
inductive FetchErr where
  | httpStatus (code : Nat)
  | invalidJson
  | exhausted
deriving DecidableEq, Repr

/-- One HTTP response: a status code and, when the body is valid JSON,
its decoded value. -/
structure HttpResp (α : Type) where
  status : Nat
  body : Option α
deriving DecidableEq, Repr

/-- The retryable status set of http_get_json. -/
def retryableStatus (s : Nat) : Bool :=
  s == 403 || s == 429 || s == 500 || s == 502 || s == 503 || s == 504

/-- The retry loop of http_get_json over the remaining attempt indices.
Returns the sleeps performed (in seconds, in order), the attempt indices
used, and the outcome.  A retryable status on a non-final attempt sleeps
2 ^ (attempt + 1) seconds and continues; otherwise raise_for_status
raises on an error status (4xx or 5xx), and r.json() is returned. -/
def httpAttempts (resp : Nat → HttpResp α) : List Nat → List Nat × List Nat × Except FetchErr α
  | [] => ([], [], Except.error FetchErr.exhausted)
  | a :: rest =>
    let r := resp a
    if retryableStatus r.status && decide (a < 3) then
      let next := httpAttempts resp rest
      (2 ^ (a + 1) :: next.1, a :: next.2.1, next.2.2)
    else if 400 ≤ r.status ∧ r.status < 600 then ([], [a], Except.error (FetchErr.httpStatus r.status))
    else
      match r.body with
      | some j => ([], [a], Except.ok j)
      | none => ([], [a], Except.error FetchErr.invalidJson)

/-- http_get_json of the script, over an oracle giving the response to
each of the four attempts. -/
def http_get_json (resp : Nat → HttpResp α) : List Nat × List Nat × Except FetchErr α :=
  httpAttempts resp [0, 1, 2, 3]

/-- One raw entry of the tickers registry file: the ticker and name
fields when present (dict.get with default ""). -/
structure RawItem where
  ticker : Option String
  name : Option String
deriving DecidableEq, Repr

/-- A normalized ticker registry entry. -/
structure TickerEntry where
  ticker : String
  name : String
deriving DecidableEq, Repr

/-- load_tickers of the script, over the decoded registry items: trim and
upper-case the ticker, trim the name, keep the entry when both are
non-empty (Python truthiness of strings). -/
def load_tickers (items : List RawItem) : List TickerEntry :=
  items.filterMap (fun it =>
    let t := pyUpper (pyStrip (it.ticker.getD ""))
    let n := pyStrip (it.name.getD "")
    if t ≠ "" ∧ n ≠ "" then some { ticker := t, name := n } else none)

/-- Modelled from the spec wording of the loader contract, for comparison
with load_tickers: exactly the entries whose ticker and name are
non-empty after trimming, ticker upper-cased, both trimmed, in input
order. -/
def loadTickersSpec (items : List RawItem) : List TickerEntry :=
  (items.filter (fun it =>
      !(pyStrip (it.ticker.getD "") == "") && !(pyStrip (it.name.getD "") == ""))).map
    (fun it => { ticker := pyUpper (pyStrip (it.ticker.getD "")),
                 name := pyStrip (it.name.getD "") })

/-- Lookup in an assoc list built by successive Python dict assignments:
the last binding of the key wins (dict.get). -/
def dictGet : List (String × α) → String → Option α
  | [], _ => none
  | p :: rest, k =>
    match dictGet rest k with
    | some v => some v
    | none => if p.1 == k then some p.2 else none

/-- The filename pattern of dated reports, DATE_RE of the script:
exactly \d(4)-\d(2)-\d(2).md over the whole name. -/
def dateMdMatch (s : String) : Bool :=
  match s.data with
  | [a, b, c, d, h1, e, f, h2, g, k, q, m, w] =>
    a.isDigit && b.isDigit && c.isDigit && d.isDigit && h1 == '-' &&
      e.isDigit && f.isDigit && h2 == '-' && g.isDigit && k.isDigit &&
      q == '.' && m == 'm' && w == 'd'
  | _ => false

/-- Python str.replace(".md", "") on the character list: remove every
occurrence of ".md", scanning left to right. -/
def replaceAllMd : List Char → List Char
  | '.' :: 'm' :: 'd' :: rest => replaceAllMd rest
  | c :: rest => c :: replaceAllMd rest
  | [] => []

/-- The predecessor of a calendar date (one-day timedelta step). -/
def predDate (d : Date) : Date :=
  if 1 < d.day then { d with day := d.day - 1 }
  else if 1 < d.month then ⟨d.year, d.month - 1, daysInMonth d.year (d.month - 1)⟩
  else ⟨d.year - 1, 12, 31⟩

/-- Python date subtraction d - timedelta(days = n), as n one-day
steps. -/
def dateSubDays (d : Date) : Nat → Date
  | 0 => d
  | n + 1 => predDate (dateSubDays d n)

/-- The deletion test of cleanup_old_reports for one directory entry:
the name matches DATE_RE, the name without its ".md" parses as a date,
and that date is strictly before the cutoff. -/
def shouldDeleteReport (cutoff : Date) (fn : String) : Bool :=
  if dateMdMatch fn then
    match parseYMD (String.mk (replaceAllMd fn.data)) with
    | some d => dateLt d cutoff
    | none => false
  else false

/-- cleanup_old_reports of the script over a directory listing: the
files that remain after the sweep with cutoff today - keepDays days. -/
def cleanup_old_reports (today : Date) (keepDays : Nat) (files : List String) : List String :=
  files.filter (fun fn => !(shouldDeleteReport (dateSubDays today keepDays) fn))

/-- The files cleanup_old_reports removes. -/
def deletedReports (today : Date) (keepDays : Nat) (files : List String) : List String :=
  files.filter (shouldDeleteReport (dateSubDays today keepDays))

/-- The markdown line write_report emits for one filing. -/
def filingLine (f : Filing) : String :=
  "- " ++ f.form ++ " | Filed: " ++ f.filed ++ " | 🔗 [Link](" ++ f.url ++ ")"

/-- The lines write_report emits for one ticker section: the heading,
then one line per filing or the fixed placeholder, then a blank line. -/
def tickerSection (results : List (String × List Filing)) (it : TickerEntry) : List String :=
  let filings := (dictGet results it.ticker).getD []
  ("## " ++ it.ticker ++ " — " ++ it.name) ::
    ((if filings.isEmpty then ["_No new filings in last 30 days_"] else filings.map filingLine) ++ [""])

/-- All lines of the report of write_report, before joining. -/
def reportLines (reportDate : Date) (tickers : List TickerEntry)
    (results : List (String × List Filing)) : List String :=
  ("# SEC Filing Tracker — " ++ isoDate reportDate) :: "" ::
    tickers.flatMap (tickerSection results)

/-- The file content write_report writes: the lines joined by newlines,
right-stripped, plus one newline. -/
def reportContent (reportDate : Date) (tickers : List TickerEntry)
    (results : List (String × List Filing)) : String :=
  pyRstrip (String.intercalate "\n" (reportLines reportDate tickers results)) ++ "\n"

/-- The filesystem state the script touches: the files of the reports
directory (name and content) and the index file content. -/
structure FS where
  reports : List (String × String)
  index : Option String
deriving DecidableEq, Repr

/-- Overwrite of one file: the new binding replaces any old one. -/
def fsSet (l : List (String × String)) (k v : String) : List (String × String) :=
  (k, v) :: l.filter (fun p => !(p.1 == k))

/-- write_report of the script as a filesystem update: overwrite the
file named after the report date with the rendered content. -/
def writeReportFs (fs : FS) (reportDate : Date) (tickers : List TickerEntry)
    (results : List (String × List Filing)) : FS :=
  { fs with reports := fsSet fs.reports (isoDate reportDate ++ ".md") (reportContent reportDate tickers results) }

/-- The index content update_index writes, from the report directory
listing: names matching DATE_RE, newest first, one link line each. -/
def updateIndexContent (names : List String) : String :=
  let files := (names.filter dateMdMatch).insertionSort (fun a b => strLtB a b = false)
  String.intercalate "\n"
    ("# SEC Filing Tracker Reports" :: "" ::
      (files.map (fun fn => "- [" ++ String.mk (replaceAllMd fn.data) ++ "](reports/" ++ fn ++ ")") ++ [""]))

/-- update_index of the script as a filesystem update. -/
def updateIndexFs (fs : FS) : FS :=
  { fs with index := some (updateIndexContent (fs.reports.map Prod.fst)) }

/-- cleanup_old_reports of the script as a filesystem update. -/
def cleanupFs (fs : FS) (today : Date) (keepDays : Nat) : FS :=
  { fs with reports := fs.reports.filter (fun p => !(shouldDeleteReport (dateSubDays today keepDays) p.1)) }

/-- The body of the per-ticker loop of main: resolve the cik of the
ticker; a missing or falsy (zero) cik yields an empty filing list and no
fetch; otherwise fetch the submissions document for the cik, inject the
cik, and parse.  Returns the filings and the list of ciks fetched. -/
def tickerStep (oracle : Nat → Except FetchErr Submissions) (cutoff : Date)
    (mapping : List (String × Nat)) (t : String) : Except FetchErr (List Filing × List Nat) :=
  match dictGet mapping t with
  | none => Except.ok ([], [])
  | some cik =>
    if cik = 0 then Except.ok ([], [])
    else
      match oracle cik with
      | Except.error e => Except.error e
      | Except.ok subs => Except.ok (parse_recent_filings { subs with cik := cik } cutoff, [cik])

/-- The per-ticker loop of main: build the results dict in order,
stopping at the first fetch error.  Returns the results bindings, the
ciks fetched, and the error that aborted the loop, if any. -/
def runTickers (oracle : Nat → Except FetchErr Submissions) (cutoff : Date)
    (mapping : List (String × Nat)) :
    List TickerEntry → List (String × List Filing) × List Nat × Option FetchErr
  | [] => ([], [], none)
  | it :: rest =>
    match tickerStep oracle cutoff mapping it.ticker with
    | Except.error e => ([], [], some e)
    | Except.ok (fl, log) =>
      let next := runTickers oracle cutoff mapping rest
      ((it.ticker, fl) :: next.1, log ++ next.2.1, next.2.2)

/-- main of the script, over oracles for the two remote sources: fetch
the ticker-to-cik mapping, run the per-ticker loop, and only if nothing
failed write the report, rebuild the index, and sweep old reports.
Returns the final filesystem, the error that aborted the run if any, and
the ciks fetched. -/
def mainRun (mapFetch : Except FetchErr (List (String × Nat)))
    (oracle : Nat → Except FetchErr Submissions) (tickers : List TickerEntry)
    (reportDate cutoff : Date) (keepDays : Nat) (fs : FS) :
    FS × Option FetchErr × List Nat :=
  match mapFetch with
  | Except.error e => (fs, some e, [])
  | Except.ok mapping =>
    let run := runTickers oracle cutoff mapping tickers
    match run.2.2 with
    | some e => (fs, some e, run.2.1)
    | none =>
      let fs1 := writeReportFs fs reportDate tickers run.1
      let fs2 := updateIndexFs fs1
      let fs3 := cleanupFs fs2 reportDate keepDays
      (fs3, none, run.2.1)

/-- The acceptance condition of the filing filter at position i, as the
specification states it: trimmed form in the accepted set, date parses
and is on or after the cutoff, accession number and primary document
non-empty after trimming. -/
def acceptIdx (subs : Submissions) (cutoff : Date) (i : Nat) : Bool :=
  decide (pyStrip (subs.forms.getD i "") ∈ FORMS) &&
    (match parseYMD (subs.filingDates.getD i "") with
     | some d => !dateLt d cutoff
     | none => false) &&
    !(pyStrip (subs.accessionNumbers.getD i "") == "") &&
    !(pyStrip (subs.primaryDocuments.getD i "") == "")

/-- The filing record built from position i of the parallel arrays. -/
def filingAt (subs : Submissions) (i : Nat) : Filing :=
  { form := pyStrip (subs.forms.getD i "")
    filed := match parseYMD (subs.filingDates.getD i "") with
             | some d => isoDate d
             | none => ""
    url := archive_url subs.cik (pyStrip (subs.accessionNumbers.getD i ""))
        (pyStrip (subs.primaryDocuments.getD i "")) }

/-- A date the strptime embedding can produce: positive 4-digit year,
month 1..12, day within the month. -/
def validDate (d : Date) : Prop :=
  1 ≤ d.year ∧ d.year ≤ 9999 ∧ 1 ≤ d.month ∧ d.month ≤ 12 ∧
    1 ≤ d.day ∧ d.day ≤ daysInMonth d.year d.month

/-- The filings the per-ticker step yields (empty on an error, which the
successful-run lemmas rule out). -/
def stepFilings (oracle : Nat → Except FetchErr Submissions) (cutoff : Date)
    (mapping : List (String × Nat)) (t : String) : List Filing :=
  match tickerStep oracle cutoff mapping t with
  | Except.ok p => p.1
  | Except.error _ => []

/-- The cik the run fetches for a ticker, when the mapping gives it a
non-falsy cik. -/
def pickCik (mapping : List (String × Nat)) (t : String) : Option Nat :=
  match dictGet mapping t with
  | some c => if c = 0 then none else some c
  | none => none

/-! Basic lemmas: digit characters, digit strings, scanning and
stripping. -/

theorem dchar_lt_aux : ∀ a, a < 10 → ∀ b, b < 10 →
    ((Char.ofNat (48 + a) < Char.ofNat (48 + b)) ↔ a < b) := by decide

theorem dchar_eq_aux : ∀ a, a < 10 → ∀ b, b < 10 →
    ((Char.ofNat (48 + a) = Char.ofNat (48 + b)) ↔ a = b) := by decide

theorem dchar_isDigit (n : Nat) : (dchar n).isDigit = true := by
  have h : ∀ a, a < 10 → (Char.ofNat (48 + a)).isDigit = true := by decide
  exact h _ (Nat.mod_lt _ (by omega))

theorem digitVal_dchar (n : Nat) : digitVal (dchar n) = n % 10 := by
  have h : ∀ a, a < 10 → digitVal (Char.ofNat (48 + a)) = a := by decide
  exact h _ (Nat.mod_lt _ (by omega))

theorem dchar_lt_iff (a b : Nat) : (dchar a < dchar b) ↔ a % 10 < b % 10 := by
  unfold dchar
  exact dchar_lt_aux _ (Nat.mod_lt _ (by omega)) _ (Nat.mod_lt _ (by omega))

theorem dchar_eq_iff (a b : Nat) : (dchar a = dchar b) ↔ a % 10 = b % 10 := by
  unfold dchar
  exact dchar_eq_aux _ (Nat.mod_lt _ (by omega)) _ (Nat.mod_lt _ (by omega))

theorem digitVal_lt_ten (c : Char) (h : c.isDigit = true) : digitVal c < 10 := by
  simp [Char.isDigit] at h
  have h2 : c.toNat ≤ 57 := by exact_mod_cast h.2
  unfold digitVal
  omega

theorem lexConsIff (a b : Char) (as bs : List Char) :
    (a :: as) < (b :: bs) ↔ a < b ∨ (a = b ∧ as < bs) := by
  constructor
  · intro h
    cases h with
    | cons h => exact Or.inr ⟨rfl, h⟩
    | rel h => exact Or.inl h
  · intro h
    rcases h with h | ⟨rfl, h⟩
    · exact List.Lex.rel h
    · exact List.Lex.cons h

theorem listLtb_iff : ∀ l1 l2 : List Char, listLtb l1 l2 = true ↔ l1 < l2 := by
  intro l1
  induction l1 with
  | nil =>
    intro l2
    cases l2 with
    | nil =>
      constructor
      · intro h
        exact absurd h (by decide)
      · intro h
        cases h
    | cons b bs =>
      constructor
      · intro _
        exact List.Lex.nil
      · intro _
        trivial
  | cons a as ih =>
    intro l2
    cases l2 with
    | nil =>
      constructor
      · intro h
        exact absurd h (by simp [listLtb])
      · intro h
        exact absurd h (List.Lex.not_nil_right _ _)
    | cons b bs =>
      simp only [listLtb]
      by_cases hab : a < b
      · simp only [hab, if_true]
        constructor
        · intro _
          exact List.Lex.rel hab
        · intro _
          trivial
      · by_cases hba : b < a
        · simp only [hab, hba, if_false, if_true]
          constructor
          · intro h
            exact absurd h (by decide)
          · intro h
            cases h with
            | cons h => exact absurd hba (lt_irrefl a)
            | rel h => exact absurd (lt_trans h hba) (lt_irrefl a)
        · have hEq : a = b := le_antisymm (not_lt.mp hba) (not_lt.mp hab)
          subst hEq
          simp only [lt_irrefl, if_false]
          rw [ih bs]
          constructor
          · intro h
            exact List.Lex.cons h
          · intro h
            cases h with
            | cons h => exact h
            | rel h => exact absurd h (lt_irrefl a)

theorem strLtB_iff (s t : String) : strLtB s t = true ↔ s < t :=
  (listLtb_iff s.data t.data).trans String.lt_iff_toList_lt.symm

theorem strLtB_false_iff (s t : String) : strLtB s t = false ↔ ¬ s < t := by
  rw [← strLtB_iff]
  cases h : strLtB s t <;> simp

theorem takeDigits_digits : ∀ l : List Char, ∀ c ∈ (takeDigits l).1, c.isDigit = true := by
  intro l
  induction l with
  | nil =>
    intro c hc
    exact absurd hc (by simp [takeDigits])
  | cons a as ih =>
    intro c hc
    by_cases h : a.isDigit
    · simp only [takeDigits, h, if_true, List.mem_cons] at hc
      rcases hc with rfl | hc
      · exact h
      · exact ih c hc
    · simp [takeDigits, h] at hc

theorem takeDigits_all : ∀ ds : List Char, (∀ c ∈ ds, c.isDigit = true) →
    takeDigits ds = (ds, []) := by
  intro ds
  induction ds with
  | nil =>
    intro _
    rfl
  | cons a as ih =>
    intro h
    have ha : a.isDigit = true := h a (by simp)
    simp [takeDigits, ha, ih (fun x hx => h x (by simp [hx]))]

theorem takeDigits_append_stop : ∀ ds : List Char, (∀ c ∈ ds, c.isDigit = true) →
    ∀ c : Char, c.isDigit = false → ∀ r, takeDigits (ds ++ c :: r) = (ds, c :: r) := by
  intro ds
  induction ds with
  | nil =>
    intro _ c hc r
    simp [takeDigits, hc]
  | cons a as ih =>
    intro h c hc r
    have ha : a.isDigit = true := h a (by simp)
    simp [takeDigits, ha, ih (fun x hx => h x (by simp [hx])) c hc r]

theorem digitsToNat_pad2 (n : Nat) : digitsToNat (pad2 n) = n % 100 := by
  simp [pad2, digitsToNat, digitVal_dchar]
  omega

theorem digitsToNat_pad4 (n : Nat) : digitsToNat (pad4 n) = n % 10000 := by
  simp [pad4, pad2, digitsToNat, digitVal_dchar]
  omega

theorem digitsToNat_lt (ds : List Char) (hd : ∀ c ∈ ds, c.isDigit = true) :
    digitsToNat ds < 10 ^ ds.length := by
  suffices haux : ∀ (l : List Char) (acc : Nat), (∀ c ∈ l, c.isDigit = true) →
      List.foldl (fun acc c => 10 * acc + digitVal c) acc l < (acc + 1) * 10 ^ l.length by
    simpa [digitsToNat] using haux ds 0 hd

  intro l
  induction l with
  | nil =>
    intro acc _
    simp
  | cons c cs ih =>
    intro acc h
    have hc := digitVal_lt_ten c (h c (by simp))
    have hrec := ih (10 * acc + digitVal c) (fun x hx => h x (by simp [hx]))
    simp only [List.foldl_cons, List.length_cons]
    refine lt_of_lt_of_le hrec ?_
    have h1 : 10 * acc + digitVal c + 1 ≤ (acc + 1) * 10 := by omega
    calc (10 * acc + digitVal c + 1) * 10 ^ cs.length
        ≤ ((acc + 1) * 10) * 10 ^ cs.length := Nat.mul_le_mul_right _ h1
      _ = (acc + 1) * 10 ^ (cs.length + 1) := by ring

theorem dropWhile_dropWhile (p : α → Bool) (l : List α) :
    (l.dropWhile p).dropWhile p = l.dropWhile p := by
  induction l with
  | nil => rfl
  | cons a as ih =>
    by_cases h : p a
    · simp [List.dropWhile_cons, h, ih]
    · simp [List.dropWhile_cons, h]

theorem pyRstrip_idem (s : String) : pyRstrip (pyRstrip s) = pyRstrip s := by
  simp [pyRstrip, List.reverse_reverse, dropWhile_dropWhile]

theorem pyUpper_eq_empty_iff (s : String) : pyUpper s = "" ↔ s = "" := by
  cases s with
  | mk l => simp [pyUpper, String.ext_iff]

theorem filterMap_guard {α β : Type} (p : α → Bool) (f : α → β) :
    ∀ l : List α, (l.filterMap fun a => if p a = true then some (f a) else none) =
      (l.filter p).map f := by
  intro l
  induction l with
  | nil => rfl
  | cons a as ih =>
    by_cases h : p a
    · simp [List.filterMap_cons, List.filter_cons, h, ih]
    · simp [List.filterMap_cons, List.filter_cons, h, ih]

/-! Order of zero-padded decimal renderings, and the parse and format
lemmas for dates. -/

theorem pad2_append_lt_iff (a b : Nat) (s t : List Char) :
    (pad2 a ++ s) < (pad2 b ++ t) ↔ (a % 100 < b % 100 ∨ (a % 100 = b % 100 ∧ s < t)) := by
  show (dchar (a / 10) :: dchar a :: s) < (dchar (b / 10) :: dchar b :: t) ↔ _
  rw [lexConsIff, dchar_lt_iff, dchar_eq_iff, lexConsIff, dchar_lt_iff, dchar_eq_iff]
  constructor
  · rintro (h | ⟨h1, h2 | ⟨h2, h3⟩⟩)
    · left
      omega
    · left
      omega
    · right
      exact ⟨by omega, h3⟩
  · rintro (h | ⟨h1, h3⟩)
    · rcases Nat.lt_trichotomy (a / 10 % 10) (b / 10 % 10) with h2 | h2 | h2
      · exact Or.inl h2
      · exact Or.inr ⟨h2, Or.inl (by omega)⟩
      · exact absurd h (by omega)
    · exact Or.inr ⟨by omega, Or.inr ⟨by omega, h3⟩⟩

theorem pad4_append_lt_iff (a b : Nat) (s t : List Char) :
    (pad4 a ++ s) < (pad4 b ++ t) ↔
      (a % 10000 < b % 10000 ∨ (a % 10000 = b % 10000 ∧ s < t)) := by
  have ha : pad4 a ++ s = pad2 (a / 100) ++ (pad2 a ++ s) := by
    simp [pad4, List.append_assoc]
  have hb : pad4 b ++ t = pad2 (b / 100) ++ (pad2 b ++ t) := by
    simp [pad4, List.append_assoc]
  rw [ha, hb, pad2_append_lt_iff, pad2_append_lt_iff]
  constructor
  · rintro (h | ⟨h1, h2 | ⟨h2, h3⟩⟩)
    · left
      omega
    · left
      omega
    · right
      exact ⟨by omega, h3⟩
  · rintro (h | ⟨h1, h3⟩)
    · rcases Nat.lt_trichotomy (a / 100 % 100) (b / 100 % 100) with h2 | h2 | h2
      · exact Or.inl h2
      · exact Or.inr ⟨h2, Or.inl (by omega)⟩
      · exact absurd h (by omega)
    · exact Or.inr ⟨by omega, Or.inr ⟨by omega, h3⟩⟩

theorem daysInMonth_le_31 (y m : Nat) : daysInMonth y m ≤ 31 := by
  unfold daysInMonth
  split_ifs <;> omega

theorem isoDate_lt_iff (d1 d2 : Date) (h1 : validDate d1) (h2 : validDate d2) :
    (isoDate d1 < isoDate d2) ↔ dateLt d1 d2 = true := by
  obtain ⟨hy1a, hy1b, hm1a, hm1b, hd1a, hd1b⟩ := h1
  obtain ⟨hy2a, hy2b, hm2a, hm2b, hd2a, hd2b⟩ := h2
  have hday1 : d1.day < 100 := lt_of_le_of_lt hd1b (lt_of_le_of_lt (daysInMonth_le_31 _ _) (by omega))
  have hday2 : d2.day < 100 := lt_of_le_of_lt hd2b (lt_of_le_of_lt (daysInMonth_le_31 _ _) (by omega))
  have hleft : isoDate d1 < isoDate d2 ↔
      (pad4 d1.year ++ ('-' :: (pad2 d1.month ++ ('-' :: (pad2 d1.day ++ []))))) <
      (pad4 d2.year ++ ('-' :: (pad2 d2.month ++ ('-' :: (pad2 d2.day ++ []))))) := by
    rw [String.lt_iff_toList_lt]
    simp [isoDate, String.toList, List.append_assoc]
  rw [hleft, pad4_append_lt_iff, lexConsIff, pad2_append_lt_iff, lexConsIff, pad2_append_lt_iff]
  have hmod1 : d1.year % 10000 = d1.year := Nat.mod_eq_of_lt (by omega)
  have hmod2 : d2.year % 10000 = d2.year := Nat.mod_eq_of_lt (by omega)
  have hmod3 : d1.month % 100 = d1.month := Nat.mod_eq_of_lt (by omega)
  have hmod4 : d2.month % 100 = d2.month := Nat.mod_eq_of_lt (by omega)
  have hmod5 : d1.day % 100 = d1.day := Nat.mod_eq_of_lt (by omega)
  have hmod6 : d2.day % 100 = d2.day := Nat.mod_eq_of_lt (by omega)
  rw [hmod1, hmod2, hmod3, hmod4, hmod5, hmod6]
  simp [dateLt, lt_irrefl]

theorem parseYMD_valid (s : String) (d : Date) (h : parseYMD s = some d) : validDate d := by
  unfold parseYMD at h
  dsimp only at h
  split at h
  · exact absurd h (by simp)
  · split at h
    · exact absurd h (by simp)
    · split at h
      · exact absurd h (by simp)
      · split at h
        · rename_i hc1 hc2 hc3 hcond
          have hd : d = ⟨digitsToNat (takeDigits s.data).1,
              digitsToNat (takeDigits (takeDigits s.data).2.tail).1,
              digitsToNat (takeDigits (takeDigits (takeDigits s.data).2.tail).2.tail).1⟩ := by
            cases h
            rfl
          subst hd
          have hy : digitsToNat (takeDigits s.data).1 < 10 ^ (takeDigits s.data).1.length :=
            digitsToNat_lt _ (takeDigits_digits s.data)
          push_neg at hc1
          rw [hc1.1] at hy
          norm_num at hy
          exact ⟨hcond.1, show digitsToNat (takeDigits s.data).1 ≤ 9999 by omega,
            hcond.2.1, hcond.2.2.1, hcond.2.2.2.1, hcond.2.2.2.2⟩
        · exact absurd h (by simp)
theorem pad2_length (n : Nat) : (pad2 n).length = 2 := rfl

theorem pad4_length (n : Nat) : (pad4 n).length = 4 := rfl

theorem parseYMD_isoDate (d : Date) (h : validDate d) : parseYMD (isoDate d) = some d := by
  obtain ⟨hy1, hy2, hm1, hm2, hd1, hd2⟩ := h
  have hday : d.day ≤ 31 := le_trans hd2 (daysInMonth_le_31 _ _)
  have hpd4 : ∀ c ∈ pad4 d.year, c.isDigit = true := by
    intro c hc
    simp [pad4, pad2] at hc
    rcases hc with rfl | rfl | rfl | rfl <;> exact dchar_isDigit _
  have hpm : ∀ c ∈ pad2 d.month, c.isDigit = true := by
    intro c hc
    simp [pad2] at hc
    rcases hc with rfl | rfl <;> exact dchar_isDigit _
  have hpd : ∀ c ∈ pad2 d.day, c.isDigit = true := by
    intro c hc
    simp [pad2] at hc
    rcases hc with rfl | rfl <;> exact dchar_isDigit _
  have hdata : (isoDate d).data = pad4 d.year ++ ('-' :: (pad2 d.month ++ ('-' :: pad2 d.day))) := by
    simp [isoDate, List.append_assoc]
  unfold parseYMD
  rw [hdata, takeDigits_append_stop _ hpd4 '-' (by decide) _]
  dsimp only
  simp only [List.head?_cons, List.tail_cons, pad4_length]
  rw [takeDigits_append_stop _ hpm '-' (by decide) _]
  dsimp only
  simp only [List.head?_cons, List.tail_cons, pad2_length]
  rw [takeDigits_all _ hpd]
  dsimp only
  simp only [pad2_length]
  rw [digitsToNat_pad4, digitsToNat_pad2, digitsToNat_pad2,
    Nat.mod_eq_of_lt (show d.year < 10000 by omega),
    Nat.mod_eq_of_lt (show d.month < 100 by omega),
    Nat.mod_eq_of_lt (show d.day < 100 by omega)]
  simp [hy1, hm1, hm2, hd1, hd2]

/-! The filing filter and its sort. -/

theorem rowOf_eq (subs : Submissions) (cutoff : Date) (i : Nat) :
    rowOf subs cutoff i =
      if acceptIdx subs cutoff i = true then some (filingAt subs i) else none := by
  unfold rowOf acceptIdx filingAt
  dsimp only
  generalize pyStrip (subs.forms.getD i "") = F
  generalize parseYMD (subs.filingDates.getD i "") = P
  generalize pyStrip (subs.accessionNumbers.getD i "") = A
  generalize pyStrip (subs.primaryDocuments.getD i "") = B
  by_cases h1 : F ∈ FORMS
  · cases P with
    | none => simp [h1]
    | some fd =>
      by_cases hdl : dateLt fd cutoff = true
      · simp [h1, hdl]
      · by_cases hacc : A = ""
        · simp [h1, hdl, hacc]
        · by_cases hpdoc : B = ""
          · simp [h1, hdl, hacc, hpdoc]
          · simp [h1, hdl, hacc, hpdoc]
  · simp [h1]

/-- C1: parse_recent_filings considers exactly the positions below the
minimum of the four parallel array lengths, and position i contributes a
record exactly when the trimmed form is in the accepted set, the date
parses and is on or after the cutoff, and the trimmed accession number
and primary document are non-empty; the final output holds exactly those
records (the sort only reorders them). -/
theorem parse_recent_filings_selects (subs : Submissions) (cutoff : Date) :
    filingRows subs cutoff =
      ((List.range (minLen subs)).filter (acceptIdx subs cutoff)).map (filingAt subs) ∧
    ∀ f : Filing, f ∈ parse_recent_filings subs cutoff ↔
      f ∈ ((List.range (minLen subs)).filter (acceptIdx subs cutoff)).map (filingAt subs) := by
  have hrows : filingRows subs cutoff =
      ((List.range (minLen subs)).filter (acceptIdx subs cutoff)).map (filingAt subs) := by
    unfold filingRows
    rw [List.filterMap_congr (fun i _ => rowOf_eq subs cutoff i), filterMap_guard]
  refine ⟨hrows, fun f => ?_⟩
  rw [← hrows]
  exact (List.perm_insertionSort filedDesc _).mem_iff

theorem filingRows_filed_shape (subs : Submissions) (cutoff : Date) :
    ∀ f ∈ filingRows subs cutoff, ∃ dd : Date, validDate dd ∧ f.filed = isoDate dd := by
  intro f hf
  unfold filingRows at hf
  rw [List.mem_filterMap] at hf
  obtain ⟨i, _, hrow⟩ := hf
  rw [rowOf_eq] at hrow
  by_cases h : acceptIdx subs cutoff i = true
  · rw [if_pos h] at hrow
    have hfi : f = filingAt subs i := (Option.some.inj hrow).symm
    subst hfi
    unfold acceptIdx at h
    cases hp : parseYMD (subs.filingDates.getD i "") with
    | none => rw [hp] at h; simp at h
    | some dd =>
      refine ⟨dd, parseYMD_valid _ _ hp, ?_⟩
      unfold filingAt
      rw [hp]
  · rw [if_neg h] at hrow
    exact absurd hrow (by simp)

/-- C4: the output of parse_recent_filings is sorted by filed date
descending: a record whose filed date is strictly greater never appears
after one with a smaller date. -/
theorem parse_recent_filings_sorted_desc (subs : Submissions) (cutoff : Date) :
    List.Pairwise (fun a b : Filing => ∀ d1 d2 : Date,
        parseYMD a.filed = some d1 → parseYMD b.filed = some d2 → dateLt d1 d2 = false)
      (parse_recent_filings subs cutoff) := by
  haveI instTotal : IsTotal Filing filedDesc := by
    constructor
    intro a b
    by_cases h : strLtB a.filed b.filed = false
    · exact Or.inl h
    · refine Or.inr ((strLtB_false_iff _ _).mpr ?_)
      have hlt : a.filed < b.filed :=
        (strLtB_iff _ _).mp (by revert h; cases strLtB a.filed b.filed <;> simp)
      exact lt_asymm hlt
  haveI instTrans : IsTrans Filing filedDesc := by
    constructor
    intro a b c h1 h2
    unfold filedDesc at h1 h2 ⊢
    rw [strLtB_false_iff] at h1 h2 ⊢
    exact not_lt.mpr (le_trans (not_lt.mp h2) (not_lt.mp h1))
  have hsorted : List.Pairwise filedDesc (parse_recent_filings subs cutoff) :=
    List.sorted_insertionSort filedDesc (filingRows subs cutoff)
  have hshape : ∀ f ∈ parse_recent_filings subs cutoff,
      ∃ dd : Date, validDate dd ∧ f.filed = isoDate dd := by
    intro f hf
    exact filingRows_filed_shape subs cutoff f
      (((List.perm_insertionSort filedDesc _).mem_iff).mp hf)
  refine hsorted.imp_of_mem ?_
  intro a b ha hb hdesc d1 d2 hp1 hp2
  obtain ⟨da, hva, hfa⟩ := hshape a ha
  obtain ⟨db, hvb, hfb⟩ := hshape b hb
  rw [hfa] at hp1
  rw [hfb] at hp2
  rw [parseYMD_isoDate da hva] at hp1
  rw [parseYMD_isoDate db hvb] at hp2
  have hd1 : d1 = da := (Option.some.inj hp1).symm
  have hd2 : d2 = db := (Option.some.inj hp2).symm
  subst hd1
  subst hd2
  unfold filedDesc at hdesc
  have hnlt : ¬ isoDate d1 < isoDate d2 := by
    rw [← hfa, ← hfb]
    exact (strLtB_false_iff _ _).mp hdesc
  cases hlt : dateLt d1 d2
  · rfl
  · exact absurd ((isoDate_lt_iff d1 d2 hva hvb).mpr hlt) hnlt

/-! The HTTP fetcher: retry, backoff, and terminal errors. -/

theorem retryableStatus_iff (s : Nat) : retryableStatus s = true ↔
    (s = 403 ∨ s = 429 ∨ s = 500 ∨ s = 502 ∨ s = 503 ∨ s = 504) := by
  simp [retryableStatus, Bool.or_eq_true, beq_iff_eq]
  tauto

theorem retryableStatus_range (s : Nat) (hs : retryableStatus s = true) :
    400 ≤ s ∧ s < 600 := by
  rcases (retryableStatus_iff s).mp hs with rfl | rfl | rfl | rfl | rfl | rfl <;> omega

/-- C2: when the first three attempts return a retryable status and the
fourth returns 200 with valid JSON, http_get_json returns that JSON after
exactly 4 attempts, sleeping 2, 4 and 8 seconds before attempts 2, 3 and
4; and the retryable set is exactly 403, 429, 500, 502, 503, 504. -/
theorem http_get_json_retry_success {α : Type} (resp : Nat → HttpResp α) (j : α)
    (h0 : retryableStatus (resp 0).status = true)
    (h1 : retryableStatus (resp 1).status = true)
    (h2 : retryableStatus (resp 2).status = true)
    (h3 : (resp 3).status = 200)
    (hb : (resp 3).body = some j) :
    http_get_json resp = ([2, 4, 8], [0, 1, 2, 3], Except.ok j) ∧
    ∀ s : Nat, retryableStatus s = true ↔
      (s = 403 ∨ s = 429 ∨ s = 500 ∨ s = 502 ∨ s = 503 ∨ s = 504) := by
  refine ⟨?_, retryableStatus_iff⟩
  have h200 : retryableStatus 200 = false := rfl
  norm_num [http_get_json, httpAttempts, h0, h1, h2, h3, hb, h200]

/-- Witness for C2 at a concrete response sequence: three 503 responses
then a 200 carrying the value 7. -/
theorem http_get_json_retry_success_witness :
    http_get_json (fun i => if i < 3 then (⟨503, none⟩ : HttpResp Nat) else ⟨200, some 7⟩) =
      ([2, 4, 8], [0, 1, 2, 3], Except.ok 7) ∧
    ∀ s : Nat, retryableStatus s = true ↔
      (s = 403 ∨ s = 429 ∨ s = 500 ∨ s = 502 ∨ s = 503 ∨ s = 504) :=
  http_get_json_retry_success _ 7 rfl rfl rfl rfl rfl

/-- C3: when all four attempts return a retryable status, http_get_json
raises (the last retryable status is an error status, so
raise_for_status fires); and when an attempt returns an error status
outside the retryable set, http_get_json raises that status without
further attempts.  In both cases no JSON value is returned. -/
theorem http_get_json_terminal_error {α : Type} (resp : Nat → HttpResp α) :
    ((∀ i, i < 4 → retryableStatus (resp i).status = true) →
      http_get_json resp = ([2, 4, 8], [0, 1, 2, 3],
        Except.error (FetchErr.httpStatus (resp 3).status))) ∧
    (∀ k, k < 4 → (∀ i, i < k → retryableStatus (resp i).status = true) →
      retryableStatus (resp k).status = false →
      400 ≤ (resp k).status → (resp k).status < 600 →
      (http_get_json resp).2.2 = Except.error (FetchErr.httpStatus (resp k).status)) := by
  constructor
  · intro hall
    have g0 := hall 0 (by omega)
    have g1 := hall 1 (by omega)
    have g2 := hall 2 (by omega)
    have g3 := hall 3 (by omega)
    obtain ⟨hs3a, hs3b⟩ := retryableStatus_range _ g3
    norm_num [http_get_json, httpAttempts, g0, g1, g2, g3, hs3a, hs3b]
  · intro k hk hpre hkr hk4 hk6
    interval_cases k
    · norm_num [http_get_json, httpAttempts, hkr, hk4, hk6]
    · have g0 := hpre 0 (by omega)
      norm_num [http_get_json, httpAttempts, g0, hkr, hk4, hk6]
    · have g0 := hpre 0 (by omega)
      have g1 := hpre 1 (by omega)
      norm_num [http_get_json, httpAttempts, g0, g1, hkr, hk4, hk6]
    · have g0 := hpre 0 (by omega)
      have g1 := hpre 1 (by omega)
      have g2 := hpre 2 (by omega)
      norm_num [http_get_json, httpAttempts, g0, g1, g2, hkr, hk4, hk6]

/-- Witness for C3 at a concrete response sequence: four 429 responses
exhaust the retries and the fetch ends in an error, with no JSON. -/
theorem http_get_json_terminal_error_witness :
    http_get_json (fun _ => (⟨429, none⟩ : HttpResp Nat)) =
      ([2, 4, 8], [0, 1, 2, 3], Except.error (FetchErr.httpStatus 429)) :=
  (http_get_json_terminal_error (fun _ => (⟨429, none⟩ : HttpResp Nat))).1
    (fun _ _ => rfl)

/-! The retention sweeper, the registry loader, and the report writer. -/

theorem shouldDeleteReport_iff (cutoff : Date) (fn : String) :
    shouldDeleteReport cutoff fn = true ↔
      (dateMdMatch fn = true ∧ ∃ d : Date,
        parseYMD (String.mk (replaceAllMd fn.data)) = some d ∧ dateLt d cutoff = true) := by
  unfold shouldDeleteReport
  by_cases hm : dateMdMatch fn = true
  · rw [if_pos hm]
    cases hp : parseYMD (String.mk (replaceAllMd fn.data)) with
    | none => simp [hm, hp]
    | some d => simp [hm, hp]
  · rw [if_neg hm]
    simp [hm]

/-- C5: the sweep deletes exactly the files whose names match the dated
report pattern and whose date (the name with ".md" removed) parses and
is strictly before today minus keepDays days; every other file, whether
its name does not match, fails to parse, or is on or after the cutoff,
is kept. -/
theorem cleanup_old_reports_characterization (today : Date) (keepDays : Nat)
    (files : List String) (fn : String) :
    (fn ∈ cleanup_old_reports today keepDays files ↔
      fn ∈ files ∧ ¬ (dateMdMatch fn = true ∧ ∃ d : Date,
        parseYMD (String.mk (replaceAllMd fn.data)) = some d ∧
        dateLt d (dateSubDays today keepDays) = true)) ∧
    (fn ∈ deletedReports today keepDays files ↔
      fn ∈ files ∧ dateMdMatch fn = true ∧ ∃ d : Date,
        parseYMD (String.mk (replaceAllMd fn.data)) = some d ∧
        dateLt d (dateSubDays today keepDays) = true) := by
  constructor
  · rw [cleanup_old_reports, List.mem_filter, Bool.not_eq_true',
      ← Bool.not_eq_true (shouldDeleteReport _ fn), shouldDeleteReport_iff]
  · rw [deletedReports, List.mem_filter, shouldDeleteReport_iff]

theorem pyUpper_ne_empty_iff (s : String) : pyUpper s ≠ "" ↔ s ≠ "" :=
  not_congr (pyUpper_eq_empty_iff s)

/-- C6: load_tickers returns exactly the registry entries whose ticker
and name are non-empty after trimming, with the ticker trimmed and
upper-cased and the name trimmed, preserving input order; entries
missing either field are dropped silently. -/
theorem load_tickers_eq_spec (items : List RawItem) :
    load_tickers items = loadTickersSpec items := by
  unfold load_tickers loadTickersSpec
  rw [← filterMap_guard]
  apply List.filterMap_congr
  intro it _
  dsimp only
  by_cases ht : pyStrip (it.ticker.getD "") = ""
  · simp [ht, pyUpper_eq_empty_iff]
  · by_cases hn : pyStrip (it.name.getD "") = ""
    · simp [ht, hn, pyUpper_eq_empty_iff, pyUpper_ne_empty_iff]
    · simp [ht, hn, pyUpper_eq_empty_iff, pyUpper_ne_empty_iff]

theorem fsSet_idem (l : List (String × String)) (k v : String) :
    fsSet (fsSet l k v) k v = fsSet l k v := by
  unfold fsSet
  rw [List.filter_cons]
  simp [List.filter_filter]

/-- C7: writing the report twice with identical inputs leaves the same
filesystem as writing it once (byte-identical content, idempotent
overwrite), and the written content is its own right-strip followed by
exactly one newline. -/
theorem write_report_idempotent_and_trailing (fs : FS) (reportDate : Date)
    (tickers : List TickerEntry) (results : List (String × List Filing)) :
    writeReportFs (writeReportFs fs reportDate tickers results) reportDate tickers results =
      writeReportFs fs reportDate tickers results ∧
    ∃ s : String, reportContent reportDate tickers results = s ++ "\n" ∧ pyRstrip s = s := by
  constructor
  · unfold writeReportFs
    simp [fsSet_idem]
  · exact ⟨pyRstrip (String.intercalate "\n" (reportLines reportDate tickers results)), rfl,
      pyRstrip_idem _⟩

/-! Dictionary and rendering lemmas for the main run. -/

theorem dictGet_mem {α : Type} : ∀ (l : List (String × α)) (k : String) (v : α),
    dictGet l k = some v → ∃ p, p ∈ l ∧ p.1 = k ∧ p.2 = v := by
  intro l
  induction l with
  | nil =>
    intro k v h
    exact absurd h (by simp [dictGet])
  | cons q rest ih =>
    intro k v h
    unfold dictGet at h
    cases hrec : dictGet rest k with
    | some w =>
      rw [hrec] at h
      obtain ⟨p, hp, h1, h2⟩ := ih k w hrec
      exact ⟨p, by simp [hp], h1, by rw [h2]; exact Option.some.inj h⟩
    | none =>
      rw [hrec] at h
      by_cases hq : (q.1 == k) = true
      · rw [if_pos hq] at h
        exact ⟨q, by simp, eq_of_beq hq, Option.some.inj h⟩
      · rw [if_neg hq] at h
        exact absurd h (by simp)

theorem dictGet_ne_none {α : Type} : ∀ (l : List (String × α)) (k : String) (p : String × α),
    p ∈ l → p.1 = k → dictGet l k ≠ none := by
  intro l
  induction l with
  | nil =>
    intro k p hp _
    exact absurd hp (List.not_mem_nil p)
  | cons q rest ih =>
    intro k p hp hpk
    unfold dictGet
    rcases List.mem_cons.mp hp with rfl | hp2
    · cases hrec : dictGet rest k with
      | none => simp [hpk]
      | some w => simp
    · cases hrec : dictGet rest k with
      | none => exact absurd hrec (ih k p hp2 hpk)
      | some w => simp

theorem dictGet_eq_some_of_mem {α : Type} (l : List (String × α)) (k : String) (v : α)
    (hall : ∀ p ∈ l, p.1 = k → p.2 = v) (hex : ∃ p ∈ l, p.1 = k) :
    dictGet l k = some v := by
  cases hget : dictGet l k with
  | none =>
    obtain ⟨p, hp, hpk⟩ := hex
    exact absurd hget (dictGet_ne_none l k p hp hpk)
  | some w =>
    obtain ⟨p, hp, h1, h2⟩ := dictGet_mem l k w hget
    rw [← h2, hall p hp h1]

theorem dictGet_filter_self {α : Type} (l : List (String × α)) (t : String) :
    dictGet (l.filter (fun p => !(p.1 == t))) t = none := by
  induction l with
  | nil => rfl
  | cons q rest ih =>
    rw [List.filter_cons]
    by_cases hq : q.1 = t
    · simp only [hq, beq_self_eq_true, Bool.not_true, if_false]
      exact ih
    · have hb : (q.1 == t) = false := beq_eq_false_iff_ne.mpr hq
      simp only [hb, Bool.not_false, if_true]
      unfold dictGet
      rw [ih, hb]
      simp

theorem dictGet_filter_ne {α : Type} (l : List (String × α)) (t u : String) (h : u ≠ t) :
    dictGet (l.filter (fun p => !(p.1 == t))) u = dictGet l u := by
  induction l with
  | nil => rfl
  | cons q rest ih =>
    rw [List.filter_cons]
    by_cases hq : q.1 = t
    · have hb : (q.1 == u) = false := beq_eq_false_iff_ne.mpr (by rw [hq]; exact h.symm)
      simp only [hq, beq_self_eq_true, Bool.not_true, Bool.false_eq_true, if_false]
      rw [ih]
      conv => rhs; unfold dictGet
      rw [hb]
      cases dictGet rest u <;> simp
    · have hb : (q.1 == t) = false := beq_eq_false_iff_ne.mpr hq
      simp only [hb, Bool.not_false, if_true]
      unfold dictGet
      rw [ih]

theorem flatMap_adjacent {α β : Type} (f : α → List β) :
    ∀ (l : List α) (u : α), u ∈ l → ∀ a b c : β, f u = [a, b, c] →
      ∃ i : Nat, (l.flatMap f)[i]? = some a ∧ (l.flatMap f)[i + 1]? = some b := by
  intro l
  induction l with
  | nil =>
    intro u hu
    exact absurd hu (List.not_mem_nil u)
  | cons x xs ih =>
    intro u hu a b c hf
    rcases List.mem_cons.mp hu with rfl | hu2
    · refine ⟨0, ?_, ?_⟩
      · rw [List.flatMap_cons, hf]
        rfl
      · rw [List.flatMap_cons, hf]
        rfl
    · obtain ⟨i, hi1, hi2⟩ := ih u hu2 a b c hf
      refine ⟨(f x).length + i, ?_, ?_⟩
      · rw [List.flatMap_cons, List.getElem?_append_right (by omega)]
        have he : (f x).length + i - (f x).length = i := by omega
        rw [he]
        exact hi1
      · rw [List.flatMap_cons, List.getElem?_append_right (by omega)]
        have he : (f x).length + i + 1 - (f x).length = i + 1 := by omega
        rw [he]
        exact hi2

theorem runTickers_ok_shape (oracle : Nat → Except FetchErr Submissions) (cutoff : Date)
    (mapping : List (String × Nat)) :
    ∀ (l : List TickerEntry) (res : List (String × List Filing)) (logs : List Nat),
      runTickers oracle cutoff mapping l = (res, logs, none) →
      res = l.map (fun u => (u.ticker, stepFilings oracle cutoff mapping u.ticker)) ∧
      logs = l.filterMap (fun u => pickCik mapping u.ticker) := by
  intro l
  induction l with
  | nil =>
    intro res logs h
    unfold runTickers at h
    simp [Prod.ext_iff] at h
    exact ⟨by simp [h.1], by simp [h.2]⟩
  | cons it rest ih =>
    intro res logs h
    unfold runTickers at h
    cases hstep : tickerStep oracle cutoff mapping it.ticker with
    | error e =>
      rw [hstep] at h
      simp [Prod.ext_iff] at h
    | ok p =>
      rw [hstep] at h
      dsimp only at h
      simp only [Prod.ext_iff] at h
      obtain ⟨h1, h2, h3⟩ := h
      obtain ⟨hres, hlogs⟩ := ih (runTickers oracle cutoff mapping rest).1
        (runTickers oracle cutoff mapping rest).2.1 (by rw [← h3])
      have hfil : stepFilings oracle cutoff mapping it.ticker = p.1 := by
        unfold stepFilings
        rw [hstep]
      have hlog : p.2 = (pickCik mapping it.ticker).toList := by
        unfold tickerStep at hstep
        unfold pickCik
        cases hm : dictGet mapping it.ticker with
        | none =>
          rw [hm] at hstep
          dsimp only at hstep
          cases hstep
          rfl
        | some cik =>
          rw [hm] at hstep
          dsimp only at hstep
          dsimp only
          by_cases hz : cik = 0
          · rw [if_pos hz] at hstep
            rw [if_pos hz]
            cases hstep
            rfl
          · rw [if_neg hz] at hstep
            rw [if_neg hz]
            cases ho : oracle cik with
            | error e2 =>
              rw [ho] at hstep
              dsimp only at hstep
              exact absurd hstep (by simp)
            | ok subs =>
              rw [ho] at hstep
              dsimp only at hstep
              cases hstep
              rfl
      constructor
      · rw [← h1, List.map_cons, ← hres, hfil]
      · rw [← h2, List.filterMap_cons, hlogs, hlog]
        cases pickCik mapping it.ticker <;> rfl

/-- C8: if the mapping fetch or any per-ticker submissions fetch raises,
main aborts before write_report, update_index and cleanup_old_reports
run, leaving the filesystem exactly as it was. -/
theorem mainRun_aborts_unchanged (mapFetch : Except FetchErr (List (String × Nat)))
    (oracle : Nat → Except FetchErr Submissions) (tickers : List TickerEntry)
    (reportDate cutoff : Date) (keepDays : Nat) (fs : FS) (e : FetchErr)
    (h : (mainRun mapFetch oracle tickers reportDate cutoff keepDays fs).2.1 = some e) :
    (mainRun mapFetch oracle tickers reportDate cutoff keepDays fs).1 = fs := by
  unfold mainRun at h ⊢
  cases mapFetch with
  | error e2 => rfl
  | ok mapping =>
    dsimp only at h ⊢
    cases hrun : (runTickers oracle cutoff mapping tickers).2.2 with
    | some e2 => rfl
    | none =>
      rw [hrun] at h
      simp at h

/-- Witness for C8: a failing mapping fetch leaves a concrete filesystem
untouched. -/
theorem mainRun_aborts_unchanged_witness :
    (mainRun (Except.error FetchErr.exhausted) (fun _ => Except.error FetchErr.exhausted) []
      ⟨2024, 3, 1⟩ ⟨2024, 1, 31⟩ 30 ⟨[("2024-02-28.md", "x")], none⟩).1 =
      ⟨[("2024-02-28.md", "x")], none⟩ :=
  mainRun_aborts_unchanged _ _ _ _ _ _ _ FetchErr.exhausted rfl

/-- C9: a ticker with no entry in the ticker-to-cik mapping gets an
empty filing list, no submissions fetch happens for it (the fetched ciks
are exactly those of tickers with a non-falsy mapping entry), and the
report renders the fixed placeholder line right under its heading. -/
theorem missing_cik_no_fetch_placeholder (oracle : Nat → Except FetchErr Submissions)
    (cutoff : Date) (mapping : List (String × Nat)) (tickers : List TickerEntry)
    (res : List (String × List Filing)) (logs : List Nat) (reportDate : Date)
    (u : TickerEntry)
    (hrun : runTickers oracle cutoff mapping tickers = (res, logs, none))
    (hu : u ∈ tickers) (hnone : dictGet mapping u.ticker = none) :
    dictGet res u.ticker = some [] ∧
    logs = tickers.filterMap (fun v => pickCik mapping v.ticker) ∧
    ∃ i : Nat,
      (reportLines reportDate tickers res)[i]? = some ("## " ++ u.ticker ++ " — " ++ u.name) ∧
      (reportLines reportDate tickers res)[i + 1]? = some "_No new filings in last 30 days_" := by
  obtain ⟨hres, hlogs⟩ := runTickers_ok_shape oracle cutoff mapping tickers res logs hrun
  have hstep : stepFilings oracle cutoff mapping u.ticker = [] := by
    unfold stepFilings tickerStep
    rw [hnone]
  have hget : dictGet res u.ticker = some [] := by
    subst hres
    apply dictGet_eq_some_of_mem
    · intro p hp hpk
      rw [List.mem_map] at hp
      obtain ⟨w, hw, hwp⟩ := hp
      subst hwp
      dsimp only at hpk ⊢
      rw [hpk, hstep]
    · exact ⟨(u.ticker, stepFilings oracle cutoff mapping u.ticker),
        List.mem_map_of_mem _ hu, rfl⟩
  refine ⟨hget, hlogs, ?_⟩
  have hsec : tickerSection res u =
      [("## " ++ u.ticker ++ " — " ++ u.name), "_No new filings in last 30 days_", ""] := by
    unfold tickerSection
    rw [hget]
    rfl
  obtain ⟨i, hi1, hi2⟩ := flatMap_adjacent (tickerSection res) tickers u hu _ _ _ hsec
  refine ⟨i + 2, ?_, ?_⟩
  · unfold reportLines
    rw [show i + 2 = (i + 1) + 1 by omega, List.getElem?_cons_succ, List.getElem?_cons_succ]
    exact hi1
  · unfold reportLines
    rw [show i + 2 + 1 = (i + 1 + 1) + 1 by omega, List.getElem?_cons_succ,
      List.getElem?_cons_succ]
    exact hi2

/-- Witness for C9: a singleton registry whose ticker has no mapping
entry, on a successful run with an oracle that is never consulted. -/
theorem missing_cik_no_fetch_placeholder_witness :
    dictGet [("AAPL", ([] : List Filing))] "AAPL" = some [] ∧
    ([] : List Nat) = [(⟨"AAPL", "Apple Inc"⟩ : TickerEntry)].filterMap
      (fun v => pickCik [] v.ticker) ∧
    ∃ i : Nat,
      (reportLines ⟨2024, 3, 1⟩ [⟨"AAPL", "Apple Inc"⟩] [("AAPL", [])])[i]? =
        some ("## " ++ "AAPL" ++ " — " ++ "Apple Inc") ∧
      (reportLines ⟨2024, 3, 1⟩ [⟨"AAPL", "Apple Inc"⟩] [("AAPL", [])])[i + 1]? =
        some "_No new filings in last 30 days_" :=
  missing_cik_no_fetch_placeholder (fun _ => Except.error FetchErr.exhausted) ⟨2024, 1, 31⟩
    [] [⟨"AAPL", "Apple Inc"⟩] [("AAPL", [])] [] ⟨2024, 3, 1⟩ ⟨"AAPL", "Apple Inc"⟩
    rfl (List.mem_singleton.mpr rfl) rfl

/-- C10: a mapping entry whose cik is the falsy value 0 is treated
exactly like a missing entry: the per-ticker step yields an empty filing
list with no fetch, and the whole per-ticker loop behaves as if the
entry were absent from the mapping. -/
theorem zero_cik_treated_as_missing (oracle : Nat → Except FetchErr Submissions)
    (cutoff : Date) (mapping : List (String × Nat)) (t : String)
    (tickers : List TickerEntry) (h : dictGet mapping t = some 0) :
    tickerStep oracle cutoff mapping t = Except.ok ([], []) ∧
    runTickers oracle cutoff mapping tickers =
      runTickers oracle cutoff (mapping.filter (fun p => !(p.1 == t))) tickers := by
  have hstep : ∀ name : String, tickerStep oracle cutoff mapping name =
      tickerStep oracle cutoff (mapping.filter (fun p => !(p.1 == t))) name := by
    intro name
    by_cases hn : name = t
    · subst hn
      unfold tickerStep
      rw [h, dictGet_filter_self]
      rfl
    · unfold tickerStep
      rw [dictGet_filter_ne mapping t name hn]
  constructor
  · unfold tickerStep
    rw [h]
    rfl
  · induction tickers with
    | nil => rfl
    | cons it rest ih =>
      unfold runTickers
      rw [hstep it.ticker, ih]

/-- Witness for C10: a concrete mapping sending the ticker X to cik 0
behaves exactly like the empty mapping. -/
theorem zero_cik_treated_as_missing_witness :
    tickerStep (fun _ => Except.error FetchErr.exhausted) ⟨2024, 1, 31⟩ [("X", 0)] "X" =
      Except.ok ([], []) ∧
    runTickers (fun _ => Except.error FetchErr.exhausted) ⟨2024, 1, 31⟩ [("X", 0)]
        [⟨"X", "X Corp"⟩] =
      runTickers (fun _ => Except.error FetchErr.exhausted) ⟨2024, 1, 31⟩
        ([("X", 0)].filter (fun p => !(p.1 == "X"))) [⟨"X", "X Corp"⟩] :=
  zero_cik_treated_as_missing (fun _ => Except.error FetchErr.exhausted) ⟨2024, 1, 31⟩
    [("X", 0)] "X" [⟨"X", "X Corp"⟩] rfl
